import Mathlib

/-!
Verification of the instrumentation-profile data engine (record model,
merge engine, indexed codec semantics, profile summary, temporal-trace
reservoir and allocation-profile store) against its specification.

The repository ships only the unit tests for this component
(llvm/unittests/ProfileData/InstrProfTest.cpp); the implementation
(InstrProfWriter, InstrProfReader, MemProf, ProfileSummaryBuilder) is not
part of the source tree.  All component definitions below are therefore
modelled from the specification text, and the unit-test scenarios are used
as concrete instances.  Names follow the source API where one is visible in
the tests (addRecord, writeBuffer, getInstrProfRecord, getMemProfRecord,
getFunctionCounts, and so on).  Function names are modelled post-hashing:
a name is represented by its u64 name hash, so String names in the tests
become distinct natural numbers here.
-/

namespace InstrProf

/-- Modelled from the spec: the error taxonomy of section 7 of the spec
(instrprof_error in the missing implementation). -/
inductive InstrProfError where
  | success
  | unknown_function
  | hash_mismatch
  | counter_overflow
  | malformed
  | unrecognized_format
  | bad_magic
deriving DecidableEq

/-- Result of a fallible operation, mirroring Expected of the missing
implementation: either a value or an InstrProfError. -/
inductive PResult (α : Type) where
  | ok : α → PResult α
  | err : InstrProfError → PResult α
deriving DecidableEq

/-- Modelled from the spec: CounterOverflowSentinel, the reserved maximum
representable counter value (getInstrMaxCountValue in the tests); counter
arithmetic clamps at it. -/
def counterSentinel : Nat := 2 ^ 63 - 1

/-- Modelled from the spec: the saturation bound for value-profile counts,
UINT64_MAX. -/
def valueCountMax : Nat := 2 ^ 64 - 1

/-- Modelled from the spec: the default per-site maximum number of
value-profile entries kept after a merge. -/
def maxNumValueEntries : Nat := 255

/-- A (Value, Count) pair of a value-profile site. -/
structure ValueEntry where
  value : Nat
  count : Nat
deriving DecidableEq

/-- A value-profile site: a collection of (Value, Count) pairs. -/
abbrev Site := List ValueEntry

/-- Stable descending insertion (by a Nat key) of one element into an
already sorted list: the element goes after every earlier element whose
key is strictly larger, and also after earlier elements with an equal key,
so equal-key elements keep their first-seen order. -/
def insertDescBy (key : α → Nat) (e : α) : List α → List α
  | [] => [e]
  | x :: xs => if key e < key x then x :: insertDescBy key e xs else e :: x :: xs

/-- Stable descending insertion sort by a Nat key. -/
def sortDescBy (key : α → Nat) : List α → List α
  | [] => []
  | x :: xs => insertDescBy key x (sortDescBy key xs)

/-- Modelled from the spec: add one incoming value-profile entry into an
accumulated site, merging by Value with saturating u64 count addition;
returns the new site and whether the addition saturated. -/
def addEntry (acc : Site) (e : ValueEntry) : Site × Bool :=
  if acc.any (fun x => x.value == e.value) then
    (acc.map (fun x =>
       if x.value == e.value then
         { value := x.value, count := min (x.count + e.count) valueCountMax }
       else x),
     acc.any (fun x => x.value == e.value && decide (valueCountMax < x.count + e.count)))
  else (acc ++ [e], false)

/-- Modelled from the spec: the union-by-Value of two sites (entries of the
first operand first, new values of the second appended in order), with
saturating count addition; returns the union and an overflow flag. -/
def unionSites (a : Site) : Site → Site × Bool
  | [] => (a, false)
  | e :: b =>
    let q := addEntry a e
    let rest := unionSites q.1 b
    (rest.1, q.2 || rest.2)

/-- Modelled from the spec: merge two value-profile sites of the same site
index: union entries by Value, sum counts with saturating u64 addition,
sort descending by count (stable, ties favor the first operand) and
truncate to the configured per-site maximum, keeping the highest-count
entries.  Returns the merged site and the counter_overflow flag. -/
def mergeSite (a b : Site) : Site × Bool :=
  let u := unionSites a b
  ((sortDescBy ValueEntry.count u.1).take maxNumValueEntries, u.2)

/-- Modelled from the spec: merge the per-index site sequences of two
records; a missing suffix on either side is kept from the other. -/
def mergeSiteLists : List Site → List Site → List Site × Bool
  | [], bs => (bs, false)
  | a :: as, [] => (a :: as, false)
  | a :: as, b :: bs =>
    let s := mergeSite a b
    let rest := mergeSiteLists as bs
    (s.1 :: rest.1, s.2 || rest.2)

/-- A record of the RecordStore: identified by (name hash, structural
hash), holding the ordered counter sequence and the value-profile sites
(one generic value kind is modelled; the merge algorithm is identical for
every kind). -/
structure NamedRecord where
  name : Nat
  hash : Nat
  counts : List Nat
  sites : List Site
deriving DecidableEq

/-- Modelled from the spec: scale every count of a value-profile site by a
weight, clamping at UINT64_MAX. -/
def scaleSite (w : Nat) (s : Site) : Site :=
  s.map (fun e => { value := e.value, count := min (e.count * w) valueCountMax })

/-- Modelled from the spec: scale a record by a weight, multiplying every
counter (clamped at CounterOverflowSentinel) and every value-profile count
(clamped at UINT64_MAX). -/
def scaleRecord (w : Nat) (r : NamedRecord) : NamedRecord :=
  { r with
    counts := r.counts.map (fun c => min (c * w) counterSentinel),
    sites := r.sites.map (scaleSite w) }

/-- Modelled from the spec: merge two records with equal name and
structural hash: elementwise saturating counter addition at the sentinel
and per-index value-site merging; mismatched counter lengths are a fatal
malformed condition leaving the destination unchanged.  The returned error
is counter_overflow when any addition saturated, success otherwise. -/
def mergeRecords (dest src : NamedRecord) : NamedRecord × InstrProfError :=
  if dest.counts.length ≠ src.counts.length then (dest, .malformed)
  else
    let newCounts := List.zipWith (fun a b => min (a + b) counterSentinel) dest.counts src.counts
    let countOv := (dest.counts.zip src.counts).any (fun p => decide (counterSentinel < p.1 + p.2))
    let merged := mergeSiteLists dest.sites src.sites
    ({ dest with counts := newCounts, sites := merged.1 },
     if countOv || merged.2 then .counter_overflow else .success)

/-- Modelled from the spec: the in-memory RecordStore of a writer, a
sequence of accumulated records in insertion order. -/
abbrev RecordStore := List NamedRecord

/-- Modelled from the spec: addRecord with an explicit weight; inserts the
incoming record scaled by the weight, or merges it into the existing
record with the same (name, structural hash). -/
def addRecordW : RecordStore → NamedRecord → Nat → RecordStore × InstrProfError
  | [], r, w => ([scaleRecord w r], .success)
  | d :: ds, r, w =>
    if d.name == r.name && d.hash == r.hash then
      let m := mergeRecords d (scaleRecord w r)
      (m.1 :: ds, m.2)
    else
      let rest := addRecordW ds r w
      (d :: rest.1, rest.2)

/-- addRecord with the default weight of one. -/
def addRecord (st : RecordStore) (r : NamedRecord) : RecordStore × InstrProfError :=
  addRecordW st r 1

/-- A record is all-zero when every one of its counters is zero. -/
def allZero (r : NamedRecord) : Bool := r.counts.all (fun c => c == 0)

/-- Modelled from the spec: the semantic content of the indexed binary
profile produced by the codec (the byte-level layout is not modelled): the
sparse flag and the serialized record payloads. -/
structure IndexedFile where
  sparse : Bool
  body : List NamedRecord
deriving DecidableEq

/-- Modelled from the spec: serialize a RecordStore; sparse output mode
omits records whose every counter is zero instead of writing explicit zero
records. -/
def writeBuffer (sparse : Bool) (st : RecordStore) : IndexedFile :=
  ⟨sparse, if sparse then st.filter (fun r => !(allZero r)) else st⟩

/-- Modelled from the spec: reader iteration over every record of an
indexed profile. -/
def readAll (f : IndexedFile) : List NamedRecord := f.body

/-- Modelled from the spec: point lookup by name hash and structural hash;
unknown_function when the name is absent, hash_mismatch when the name is
present but no entry for it has the requested structural hash. -/
def getInstrProfRecord (f : IndexedFile) (n h : Nat) : PResult NamedRecord :=
  if f.body.any (fun r => r.name == n) then
    match f.body.find? (fun r => r.name == n && r.hash == h) with
    | some r => .ok r
    | none => .err .hash_mismatch
  else .err .unknown_function

/-- Modelled from the spec: counter lookup, the counters of the record
found by getInstrProfRecord. -/
def getFunctionCounts (f : IndexedFile) (n h : Nat) : PResult (List Nat) :=
  match getInstrProfRecord f n h with
  | .ok r => .ok r.counts
  | .err e => .err e

/-- Modelled from the spec: the full multiset of every counter value
across every record of a store, the input of the SummaryBuilder. -/
def summaryCounters (st : RecordStore) : List Nat :=
  st.foldr (fun r acc => r.counts ++ acc) []

/-- Modelled from the spec: the total of all counters of a store. -/
def totalCount (st : RecordStore) : Nat :=
  (summaryCounters st).foldr (fun a b => a + b) 0

/-- Modelled from the spec: the number of counters of a store. -/
def numCounts (st : RecordStore) : Nat := (summaryCounters st).length

/-- Modelled from the spec: the maximum single counter of a store. -/
def maxCount (st : RecordStore) : Nat := (summaryCounters st).foldr max 0

/-- Modelled from the spec: the maximum per-function entry count of a
store; by convention the first counter of a record is its entry count. -/
def maxFunctionCount (st : RecordStore) : Nat :=
  st.foldr (fun r acc => max (r.counts.headD 0) acc) 0

/-- Modelled from the spec: walk a descending counter list accumulating
the cumulative sum and return the first count value at which the
cumulative sum reaches the threshold. -/
def cumWalk : List Nat → Nat → Nat → Nat
  | [], _, _ => 0
  | c :: cs, acc, thr => if thr ≤ acc + c then c else cumWalk cs (acc + c) thr

/-- Modelled from the spec: the MinCount recorded for a cutoff fraction in
parts-per-million: sort the counter multiset descending, walk the
cumulative sum, and record the smallest count value at which the sum first
reaches cutoff * total / 1000000. -/
def minCountForCutoff (st : RecordStore) (cutoff : Nat) : Nat :=
  cumWalk (sortDescBy (fun c => c) (summaryCounters st)) 0
    (cutoff * totalCount st / 1000000)

/-- Modelled from the spec: the TraceReservoir, a weighted random sampler
of temporal traces.  A trace is the ordered list of function-identifier
hashes; each retained trace is stored with the random priority key that
the sampling scheme assigned to it, and StreamSize records all weight ever
ingested. -/
structure TraceReservoir where
  capacity : Nat
  maxTraceLength : Nat
  entries : List (Nat × List Nat)
  streamSize : Nat

/-- A fresh TraceReservoir of the given capacity and maximum trace
length. -/
def emptyReservoir (k l : Nat) : TraceReservoir := ⟨k, l, [], 0⟩

/-- Pair each incoming trace with the random priority key the sampling
oracle assigns to its batch position. -/
def keyTraces (prios : Nat → Nat) (i : Nat) : List (List Nat) → List (Nat × List Nat)
  | [] => []
  | t :: ts => (prios i, t) :: keyTraces prios (i + 1) ts

/-- Modelled from the spec: retain the top k entries by priority key; a
collection that already fits in the reservoir is retained unchanged (no
sampling decision is needed). -/
def topK (k : Nat) (l : List (Nat × List Nat)) : List (Nat × List Nat) :=
  if l.length ≤ k then l else (sortDescBy Prod.fst l).take k

/-- Modelled from the spec: ingest a batch of traces representing a total
population weight w: truncate each trace to the maximum length (prefix
retained) before any sampling decision, key each trace with its random
priority, keep the top-capacity entries by key, and add w to the stream
size.  The prios argument is the randomness oracle of the sampler. -/
def ingest (r : TraceReservoir) (prios : Nat → Nat) (batch : List (List Nat))
    (w : Nat) : TraceReservoir :=
  { r with
    entries := topK r.capacity
      (r.entries ++ keyTraces prios 0 (batch.map (fun t => t.take r.maxTraceLength))),
    streamSize := r.streamSize + w }

/-- The traces currently retained by the reservoir. -/
def traces (r : TraceReservoir) : List (List Nat) := r.entries.map Prod.snd

/-- Modelled from the spec: whether any trace weight was ever ingested. -/
def hasTemporalProfile (r : TraceReservoir) : Bool := decide (0 < r.streamSize)

/-- One ingest operation of a sequence: its randomness oracle, its batch
of traces, and the population weight the batch represents. -/
structure IngestStep where
  prios : Nat → Nat
  batch : List (List Nat)
  weight : Nat

/-- Run a sequence of ingest operations. -/
def ingestAll (r : TraceReservoir) : List IngestStep → TraceReservoir
  | [] => r
  | s :: ss => ingestAll (ingest r s.prios s.batch s.weight) ss

/-- Modelled from the spec: a Frame of the allocation-profile store:
symbol hash, line, column and the inlined-frame flag. -/
structure Frame where
  function : Nat
  lineOffset : Nat
  column : Nat
  isInlineFrame : Bool
deriving DecidableEq

/-- Modelled from the spec: the zeroed placeholder Frame substituted for
an unmapped frame id. -/
def zeroFrame : Frame := ⟨0, 0, 0, false⟩

/-- Modelled from the spec: an allocation-profile record as stored: each
allocation site and call site references its call stack as a sequence of
FrameIds. -/
structure IndexedMemProfRecord where
  allocSites : List (List Nat)
  callSites : List (List Nat)
deriving DecidableEq

/-- Modelled from the spec: a materialized (id-free) allocation-profile
record: every call stack resolved into Frames. -/
structure MemProfRecord where
  allocSites : List (List Frame)
  callSites : List (List Frame)
deriving DecidableEq

/-- Modelled from the spec: the AllocationProfileStore: the FrameId to
Frame dedup table and the per-function records. -/
structure MemProfStore where
  frames : List (Nat × Frame)
  records : List (Nat × IndexedMemProfRecord)
deriving DecidableEq

/-- Table-backed frame lookup of an AllocationProfileStore. -/
def lookupFrame (st : MemProfStore) (i : Nat) : Option Frame :=
  (st.frames.find? (fun p => p.1 == i)).map (fun p => p.2)

/-- Lookup of the stored record of a function identifier. -/
def lookupMemRecord (st : MemProfStore) (id : Nat) : Option IndexedMemProfRecord :=
  (st.records.find? (fun p => p.1 == id)).map (fun p => p.2)

/-- Modelled from the spec: resolve one stored call stack against the
frame table; a missing frame id is a hash_mismatch failure. -/
def resolveStack (st : MemProfStore) : List Nat → PResult (List Frame)
  | [] => .ok []
  | i :: is =>
    match lookupFrame st i with
    | none => .err .hash_mismatch
    | some f =>
      match resolveStack st is with
      | .ok fs => .ok (f :: fs)
      | .err e => .err e

/-- Resolve a sequence of stored call stacks against the frame table. -/
def resolveStacks (st : MemProfStore) : List (List Nat) → PResult (List (List Frame))
  | [] => .ok []
  | s :: ss =>
    match resolveStack st s with
    | .err e => .err e
    | .ok fs =>
      match resolveStacks st ss with
      | .ok rest => .ok (fs :: rest)
      | .err e => .err e

/-- Modelled from the spec: getRecord of the AllocationProfileStore:
unknown_function when the queried function identifier is absent,
hash_mismatch when required frame data is missing, otherwise the
materialized record. -/
def getMemProfRecord (st : MemProfStore) (id : Nat) : PResult MemProfRecord :=
  match lookupMemRecord st id with
  | none => .err .unknown_function
  | some r =>
    match resolveStacks st r.allocSites with
    | .err e => .err e
    | .ok a =>
      match resolveStacks st r.callSites with
      | .err e => .err e
      | .ok c => .ok ⟨a, c⟩

/-- Every FrameId a stored record needs for materialization. -/
def requiredFrameIds (r : IndexedMemProfRecord) : List Nat :=
  (r.allocSites ++ r.callSites).foldr (fun s acc => s ++ acc) []

/-- Modelled from the spec: resolve a call stack through a caller-supplied
frame lookup with the zeroed-placeholder fallback, surfacing the id of the
first unmapped frame as an observable condition. -/
def resolveFrames (L : Nat → Option Frame) : List Nat → List Frame × Option Nat
  | [] => ([], none)
  | i :: is =>
    let rest := resolveFrames L is
    match L i with
    | some f => (f :: rest.1, rest.2)
    | none => (zeroFrame :: rest.1, some i)

/-- Modelled from the spec: translate a raw address recorded during value
profiling into a stable symbol hash through the symtab address resolver;
an unmapped address defaults to the value 0. -/
def mapAddress (A : Nat → Option Nat) (v : Nat) : Nat :=
  match A v with
  | some h => h
  | none => 0

/-- Modelled from the spec: the counter value obtained by merging a fixed
counter value c into an accumulator n times with saturating addition at
the CounterOverflowSentinel. -/
def iterSatAdd (c : Nat) : Nat → Nat
  | 0 => 0
  | n + 1 => min (iterSatAdd c n + c) counterSentinel

/-- The total count of a value-profile site. -/
def siteTotal (s : Site) : Nat := s.foldr (fun e acc => e.count + acc) 0

/-! Concrete instances taken from the unit tests. -/

/-- The RecordStore after adding record foo (modelled as name hash 1) with
the single counter 1, from the unit test value_profile_data_merge_saturation. -/
def satStoreCounters : RecordStore := (addRecord [] ⟨1, 0x1234, [1], []⟩).1

/-- The RecordStore after adding record baz (modelled as name hash 3) with
counters 3, 4 and one value-profile site holding value 0x5678 with count 1,
from the unit test value_profile_data_merge_saturation. -/
def satStoreValues : RecordStore := (addRecord [] ⟨3, 0x5678, [3, 4], [[⟨0x5678, 1⟩]]⟩).1

/-- The indexed profile from the unit tests get_instr_prof_record and
get_function_counts: records foo/0x1234 with counters 1, 2 and foo/0x1235
with counters 3, 4 (foo modelled as name hash 1). -/
def lookupTestFile : IndexedFile :=
  writeBuffer false [⟨1, 0x1234, [1, 2], []⟩, ⟨1, 0x1235, [3, 4], []⟩]

/-- The first 255-entry value-profile site of the unit test
value_profile_data_merge_site_trunc: value 2i with count 2i + 1000 for
i below 255. -/
def truncSiteA : Site := (List.range 255).map (fun i => ⟨2 * i, 2 * i + 1000⟩)

/-- The second 255-entry value-profile site of the unit test
value_profile_data_merge_site_trunc: value 2i + 1 with count 2i + 1001 for
i below 255. -/
def truncSiteB : Site := (List.range 255).map (fun i => ⟨2 * i + 1, 2 * i + 1001⟩)

/-- The expected merged site of the unit test
value_profile_data_merge_site_trunc: entry I holds value 509 - I with
count 1509 - I, the top 255 by count of the 510-entry union, strictly
descending. -/
def truncExpected : Site := (List.range 255).map (fun i => ⟨509 - i, 1509 - i⟩)

/-- The full 510-entry union of the two sites of the truncation unit test
sorted descending by count: entry I holds value 509 - I with count
1509 - I for I below 510. -/
def truncFullSorted : Site := (List.range 510).map (fun i => ⟨509 - i, 1509 - i⟩)

/-- The RecordStore of the unit test get_profile_summary: func1 with
counter 97531, func2 with counters 0, 0, func3 with the six large
power-of-two counters, func4 with counter 0 (names modelled as hashes
1 to 4). -/
def summaryTestStore : RecordStore :=
  [⟨1, 0x1234, [97531], []⟩,
   ⟨2, 0x1234, [0, 0], []⟩,
   ⟨3, 0x1234, [2305843009213693952, 1152921504606846976, 576460752303423488,
                288230376151711744, 144115188075855872, 72057594037927936], []⟩,
   ⟨4, 0x1234, [0], []⟩]

/-- The AllocationProfileStore of the unit test
test_memprof_getrecord_error: the record of function identifier 0x9999
needs frames 0 to 5, but the frame table was left empty. -/
def memProfErrStore : MemProfStore :=
  ⟨[], [(0x9999, ⟨[[0, 1], [2, 3]], [[4, 5]]⟩)]⟩

/-! Helper lemmas about the stable descending insertion sort. -/

theorem mem_insertDescBy (key : α → Nat) (e x : α) (l : List α) :
    x ∈ insertDescBy key e l ↔ x = e ∨ x ∈ l := by
  induction l with
  | nil => simp [insertDescBy]
  | cons y ys ih =>
    simp only [insertDescBy]
    split
    · simp only [List.mem_cons, ih]
      tauto
    · simp [List.mem_cons]

theorem length_insertDescBy (key : α → Nat) (e : α) (l : List α) :
    (insertDescBy key e l).length = l.length + 1 := by
  induction l with
  | nil => rfl
  | cons y ys ih =>
    simp only [insertDescBy]
    split
    · simp [ih]
    · simp

theorem length_sortDescBy (key : α → Nat) (l : List α) :
    (sortDescBy key l).length = l.length := by
  induction l with
  | nil => rfl
  | cons y ys ih => simp [sortDescBy, length_insertDescBy, ih]

theorem mem_sortDescBy (key : α → Nat) (x : α) (l : List α) :
    x ∈ sortDescBy key l ↔ x ∈ l := by
  induction l with
  | nil => simp [sortDescBy]
  | cons y ys ih => simp [sortDescBy, mem_insertDescBy, ih]

theorem pairwise_insertDescBy (key : α → Nat) (e : α) (l : List α)
    (h : l.Pairwise (fun a b => key b ≤ key a)) :
    (insertDescBy key e l).Pairwise (fun a b => key b ≤ key a) := by
  induction l with
  | nil => simp [insertDescBy]
  | cons y ys ih =>
    rw [List.pairwise_cons] at h
    obtain ⟨hy, hys⟩ := h
    simp only [insertDescBy]
    split
    · rename_i hlt
      rw [List.pairwise_cons]
      refine ⟨?_, ih hys⟩
      intro z hz
      rcases (mem_insertDescBy key e z ys).1 hz with rfl | hz
      · exact Nat.le_of_lt hlt
      · exact hy z hz
    · rename_i hge
      rw [List.pairwise_cons]
      refine ⟨?_, List.pairwise_cons.2 ⟨hy, hys⟩⟩
      intro z hz
      rcases List.mem_cons.1 hz with rfl | hz
      · omega
      · have := hy z hz
        omega

theorem sorted_sortDescBy (key : α → Nat) (l : List α) :
    (sortDescBy key l).Pairwise (fun a b => key b ≤ key a) := by
  induction l with
  | nil => simp [sortDescBy]
  | cons y ys ih => exact pairwise_insertDescBy key y (sortDescBy key ys) ih

theorem perm_insertDescBy (key : α → Nat) (e : α) (l : List α) :
    (insertDescBy key e l).Perm (e :: l) := by
  induction l with
  | nil => exact List.Perm.refl _
  | cons x xs ih =>
    simp only [insertDescBy]
    split
    · exact (ih.cons x).trans (List.Perm.swap e x xs)
    · exact List.Perm.refl _

theorem perm_sortDescBy (key : α → Nat) (l : List α) : (sortDescBy key l).Perm l := by
  induction l with
  | nil => exact List.Perm.refl _
  | cons x xs ih =>
    simp only [sortDescBy]
    exact (perm_insertDescBy key x (sortDescBy key xs)).trans (ih.cons x)

theorem eq_of_perm_sorted_strict (key : α → Nat) :
    ∀ l m : List α, l.Perm m → l.Pairwise (fun a b => key b ≤ key a) →
      m.Pairwise (fun a b => key b < key a) → l = m := by
  intro l
  induction l with
  | nil =>
    intro m hp _ _
    exact (List.Perm.eq_nil hp.symm).symm
  | cons x xs ih =>
    intro m hp hsl hsm
    cases m with
    | nil => exact List.Perm.eq_nil hp
    | cons y ys =>
      have hxy : x = y := by
        by_contra hne
        have hxm := hp.subset (List.mem_cons_self x xs)
        have hym := hp.symm.subset (List.mem_cons_self y ys)
        rcases List.mem_cons.1 hxm with h1 | h1
        · exact hne h1
        · rcases List.mem_cons.1 hym with h2 | h2
          · exact hne h2.symm
          · have hk1 := (List.pairwise_cons.1 hsm).1 x h1
            have hk2 := (List.pairwise_cons.1 hsl).1 y h2
            omega
      subst hxy
      rw [ih ys hp.cons_inv (List.pairwise_cons.1 hsl).2 (List.pairwise_cons.1 hsm).2]

theorem sortDescBy_eq_of_sorted (key : α → Nat) (l m : List α) (hp : l.Perm m)
    (hm : m.Pairwise (fun a b => key b < key a)) : sortDescBy key l = m :=
  eq_of_perm_sorted_strict key _ _ ((perm_sortDescBy key l).trans hp)
    (sorted_sortDescBy key l) hm

theorem perm_map_range_reflect (f : Nat → α) :
    ∀ n : Nat, ((List.range n).map (fun i => f (n - 1 - i))).Perm ((List.range n).map f) := by
  intro n
  induction n with
  | zero => simp
  | succ n ih =>
    have hL : (List.range (n + 1)).map (fun i => f (n + 1 - 1 - i))
        = f n :: (List.range n).map (fun i => f (n - 1 - i)) := by
      rw [List.range_succ_eq_map]
      simp only [List.map_cons, List.map_map, Function.comp]
      refine congrArg₂ List.cons ?_ ?_
      · congr 1
      · refine List.map_congr_left (fun a ha => ?_)
        simp only [Function.comp_apply]
        congr 1
        omega
    have hR : ((List.range (n + 1)).map f).Perm (f n :: (List.range n).map f) := by
      rw [List.range_succ]
      simp only [List.map_append, List.map_cons, List.map_nil]
      exact List.perm_append_singleton _ _
    rw [hL]
    exact (ih.cons (f n)).trans hR.symm

theorem perm_append_pair (E O : List α) (a b : α) :
    ((E ++ [a]) ++ (O ++ [b])).Perm ((E ++ O) ++ [a, b]) := by
  rw [List.append_assoc E [a], List.append_assoc E O]
  apply List.Perm.append_left
  show (a :: (O ++ [b])).Perm (O ++ [a, b])
  exact ((List.perm_append_singleton b O).cons a).trans (@List.perm_append_comm α [a, b] O)

theorem perm_map_range_even_odd (g : Nat → α) :
    ∀ n : Nat,
      ((List.range n).map (fun i => g (2 * i))
        ++ (List.range n).map (fun i => g (2 * i + 1))).Perm
        ((List.range (2 * n)).map g) := by
  intro n
  induction n with
  | zero => simp
  | succ n ih =>
    have hA : (List.range (n + 1)).map (fun i => g (2 * i))
        = (List.range n).map (fun i => g (2 * i)) ++ [g (2 * n)] := by
      simp [List.range_succ]
    have hB : (List.range (n + 1)).map (fun i => g (2 * i + 1))
        = (List.range n).map (fun i => g (2 * i + 1)) ++ [g (2 * n + 1)] := by
      simp [List.range_succ]
    have hC : List.range (2 * (n + 1)) = List.range (2 * n) ++ [2 * n, 2 * n + 1] := by
      have h2 : 2 * (n + 1) = (2 * n + 1) + 1 := by omega
      rw [h2, List.range_succ, List.range_succ]
      simp [List.append_assoc]
    rw [hA, hB, hC, List.map_append]
    simp only [List.map_cons, List.map_nil]
    exact (perm_append_pair _ _ _ _).trans (ih.append_right [g (2 * n), g (2 * n + 1)])

theorem addEntry_fresh (a : Site) (e : ValueEntry) (h : ∀ x ∈ a, x.value ≠ e.value) :
    addEntry a e = (a ++ [e], false) := by
  unfold addEntry
  rw [if_neg]
  simp only [List.any_eq_true, beq_iff_eq, not_exists]
  rintro x ⟨hx, hval⟩
  exact h x hx hval

theorem unionSites_disjoint :
    ∀ (b a : Site), (∀ e ∈ b, ∀ x ∈ a, x.value ≠ e.value) →
      b.Pairwise (fun x y => x.value ≠ y.value) →
      unionSites a b = (a ++ b, false) := by
  intro b
  induction b with
  | nil => intro a _ _; simp [unionSites]
  | cons e b ih =>
    intro a hfresh hpair
    have h1 : addEntry a e = (a ++ [e], false) :=
      addEntry_fresh a e (hfresh e (List.mem_cons_self e b))
    rw [List.pairwise_cons] at hpair
    obtain ⟨he, hpair2⟩ := hpair
    have h2 : unionSites (a ++ [e]) b = ((a ++ [e]) ++ b, false) := by
      apply ih
      · intro e2 he2 x hx
        rcases List.mem_append.1 hx with hxa | hxe
        · exact hfresh e2 (List.mem_cons_of_mem _ he2) x hxa
        · rw [List.mem_singleton] at hxe
          subst hxe
          exact he e2 he2
      · exact hpair2
    calc unionSites a (e :: b)
        = ((unionSites (addEntry a e).1 b).1,
           (addEntry a e).2 || (unionSites (addEntry a e).1 b).2) := rfl
      _ = ((unionSites (a ++ [e]) b).1, false || (unionSites (a ++ [e]) b).2) := by rw [h1]
      _ = (a ++ e :: b, false) := by rw [h2]; simp [List.append_assoc]

/-! The claims. -/

/-- C1: writing a RecordStore through the indexed binary format and reading
it back is the identity on every record (counters and value-profile sites),
except that sparse output mode omits records whose every counter is zero;
a sparse-written and a dense-written profile with the same non-zero data
are semantically equivalent on read.  The last two conjuncts instantiate
the unit tests write_and_read_one_function and preserve_no_records. -/
theorem write_read_roundtrip (st : RecordStore) :
    readAll (writeBuffer false st) = st
    ∧ readAll (writeBuffer true st) = st.filter (fun r => !(allZero r))
    ∧ readAll (writeBuffer true st) = (readAll (writeBuffer false st)).filter (fun r => !(allZero r))
    ∧ readAll (writeBuffer false [⟨1, 0x1234, [1, 2, 3, 4], []⟩]) = [⟨1, 0x1234, [1, 2, 3, 4], []⟩]
    ∧ readAll (writeBuffer true [⟨1, 0x1234, [0], []⟩, ⟨2, 0x4321, [0, 0], []⟩,
        ⟨3, 0x4321, [0, 0, 0], []⟩]) = [] := by
  exact ⟨rfl, rfl, rfl, rfl, by decide⟩

/-- C3: counter merging saturates rather than wraps: merging counters with
values 1 and CounterOverflowSentinel stores and reads back the sentinel and
reports counter_overflow; merging value-profile entries with counts
UINT64_MAX and 1 stores UINT64_MAX and reports counter_overflow; in both
cases the error is non-fatal and the merged record with the clamped value
is stored and read back through the indexed format. -/
theorem merge_saturation :
    (addRecord satStoreCounters ⟨1, 0x1234, [counterSentinel], []⟩).2 = .counter_overflow
    ∧ getInstrProfRecord
        (writeBuffer false (addRecord satStoreCounters ⟨1, 0x1234, [counterSentinel], []⟩).1)
        1 0x1234
      = .ok ⟨1, 0x1234, [counterSentinel], []⟩
    ∧ (addRecord satStoreValues ⟨3, 0x5678, [5, 6], [[⟨0x5678, valueCountMax⟩]]⟩).2
      = .counter_overflow
    ∧ getInstrProfRecord
        (writeBuffer false
          (addRecord satStoreValues ⟨3, 0x5678, [5, 6], [[⟨0x5678, valueCountMax⟩]]⟩).1)
        3 0x5678
      = .ok ⟨3, 0x5678, [8, 10], [[⟨0x5678, valueCountMax⟩]]⟩ := by
  decide

/-- C4: for every indexed profile, a lookup (getInstrProfRecord or
getFunctionCounts) with a name absent from the profile fails with
unknown_function, and a lookup with a present name but a structural hash
that no stored entry for that name has fails with hash_mismatch. -/
theorem lookup_error_kinds (f : IndexedFile) (n h : Nat) :
    ((∀ r ∈ f.body, r.name ≠ n) →
       getInstrProfRecord f n h = .err .unknown_function
       ∧ getFunctionCounts f n h = .err .unknown_function)
    ∧ ((∃ r ∈ f.body, r.name = n) → (∀ r ∈ f.body, r.name = n → r.hash ≠ h) →
       getInstrProfRecord f n h = .err .hash_mismatch
       ∧ getFunctionCounts f n h = .err .hash_mismatch) := by
  constructor
  · intro hnone
    have hany : f.body.any (fun r => r.name == n) = false := by
      simp only [List.any_eq_false, beq_iff_eq]
      exact hnone
    simp [getInstrProfRecord, getFunctionCounts, hany]
  · intro hsome hnohash
    have hany : f.body.any (fun r => r.name == n) = true := by
      simp only [List.any_eq_true, beq_iff_eq]
      exact hsome
    have hfind : f.body.find? (fun r => r.name == n && r.hash == h) = none := by
      rw [List.find?_eq_none]
      intro r hr
      simp only [Bool.and_eq_true, beq_iff_eq, not_and]
      exact hnohash r hr
    simp [getInstrProfRecord, getFunctionCounts, hany, hfind]

/-- C4 witness: on the profile of the get_instr_prof_record test, looking
up the present name foo with the absent structural hash 0x5678 fails with
hash_mismatch, and looking up the absent name bar fails with
unknown_function. -/
theorem lookup_error_kinds_witness :
    getInstrProfRecord lookupTestFile 1 0x5678 = .err .hash_mismatch
    ∧ getFunctionCounts lookupTestFile 2 0x1234 = .err .unknown_function :=
  ⟨((lookup_error_kinds lookupTestFile 1 0x5678).2 (by decide) (by decide)).1,
   ((lookup_error_kinds lookupTestFile 2 0x1234).1 (by decide)).2⟩

set_option maxRecDepth 100000 in
set_option maxHeartbeats 4000000 in
/-- C2: merging value-profile sites of the same site index unions entries
by Value summing counts, sorts descending by count and truncates to the
per-site maximum keeping the highest-count entries: the merged site is
always sorted descending, never longer than the maximum, and equals the
truncated descending sort of the union; merging the two 255-entry sites of
the truncation unit test yields exactly 255 entries, ordered strictly
descending by count, equal to the top 255 by count from the union. -/
theorem value_profile_merge_site_trunc :
    (∀ a b : Site,
       ((mergeSite a b).1).Pairwise (fun x y => y.count ≤ x.count)
       ∧ ((mergeSite a b).1).length ≤ maxNumValueEntries
       ∧ (mergeSite a b).1
         = (sortDescBy ValueEntry.count (unionSites a b).1).take maxNumValueEntries)
    ∧ (mergeSite truncSiteA truncSiteB).1 = truncExpected
    ∧ (mergeSite truncSiteA truncSiteB).1.length = 255 := by
  have hfresh : ∀ e ∈ truncSiteB, ∀ x ∈ truncSiteA, x.value ≠ e.value := by
    intro e he x hx
    simp only [truncSiteB, truncSiteA, List.mem_map, List.mem_range] at he hx
    obtain ⟨j, hj, rfl⟩ := he
    obtain ⟨i, hi, rfl⟩ := hx
    show 2 * i ≠ 2 * j + 1
    omega
  have hpairB : truncSiteB.Pairwise (fun x y => x.value ≠ y.value) := by
    unfold truncSiteB
    rw [List.pairwise_map]
    exact (List.pairwise_lt_range 255).imp
      (fun hab => (by omega : 2 * _ + 1 ≠ 2 * _ + 1))
  have hu : unionSites truncSiteA truncSiteB = (truncSiteA ++ truncSiteB, false) :=
    unionSites_disjoint truncSiteB truncSiteA hfresh hpairB
  have hA : truncSiteA
      = (List.range 255).map (fun i => (⟨2 * i, 1000 + 2 * i⟩ : ValueEntry)) := by
    unfold truncSiteA
    exact List.map_congr_left (fun a ha => by congr 1; omega)
  have hB : truncSiteB
      = (List.range 255).map (fun i => (⟨2 * i + 1, 1000 + (2 * i + 1)⟩ : ValueEntry)) := by
    unfold truncSiteB
    exact List.map_congr_left (fun a ha => by congr 1; omega)
  have hF : truncFullSorted
      = (List.range 510).map (fun i => (⟨510 - 1 - i, 1000 + (510 - 1 - i)⟩ : ValueEntry)) := by
    unfold truncFullSorted
    refine List.map_congr_left (fun a ha => ?_)
    rw [List.mem_range] at ha
    congr 1
    omega
  have hperm : (truncSiteA ++ truncSiteB).Perm truncFullSorted := by
    rw [hA, hB, hF]
    exact (perm_map_range_even_odd (fun i => (⟨i, 1000 + i⟩ : ValueEntry)) 255).trans
      ((perm_map_range_reflect (fun i => (⟨i, 1000 + i⟩ : ValueEntry)) 510).symm)
  have hsorted : truncFullSorted.Pairwise (fun a b => b.count < a.count) := by
    unfold truncFullSorted
    rw [List.pairwise_map]
    refine (List.Pairwise.and_mem.1 (List.pairwise_lt_range 510)).imp ?_
    intro a b hab
    obtain ⟨ha, hb, hlt⟩ := hab
    rw [List.mem_range] at ha hb
    show 1509 - b < 1509 - a
    omega
  have hs : sortDescBy ValueEntry.count (truncSiteA ++ truncSiteB) = truncFullSorted :=
    sortDescBy_eq_of_sorted ValueEntry.count _ _ hperm hsorted
  have hmain : (mergeSite truncSiteA truncSiteB).1 = truncExpected := by
    calc (mergeSite truncSiteA truncSiteB).1
        = (sortDescBy ValueEntry.count
            (unionSites truncSiteA truncSiteB).1).take maxNumValueEntries := rfl
      _ = (sortDescBy ValueEntry.count (truncSiteA ++ truncSiteB)).take maxNumValueEntries := by
            rw [hu]
      _ = truncFullSorted.take maxNumValueEntries := by rw [hs]
      _ = truncExpected := by decide
  refine ⟨?_, hmain, by rw [hmain]; decide⟩
  intro a b
  refine ⟨?_, ?_, rfl⟩
  · exact List.Pairwise.sublist (List.take_sublist _ _)
      (sorted_sortDescBy ValueEntry.count (unionSites a b).1)
  · simp only [mergeSite, List.length_take]
    omega

/-- C5: the profile summary over the counter multiset of the
get_profile_summary unit test store: sorting the multiset descending and
walking the cumulative sum against the thresholds cutoff * total / 1000000
for the default cutoffs 800000, 900000, 950000, 990000 gives exactly the
hand-computed MinCount values, and the total count, number of counters,
max count and max function count equal the hand-computed values. -/
theorem profile_summary_values :
    totalCount summaryTestStore = 4539628424389557499
    ∧ numCounts summaryTestStore = 10
    ∧ maxCount summaryTestStore = 2305843009213693952
    ∧ maxFunctionCount summaryTestStore = 2305843009213693952
    ∧ minCountForCutoff summaryTestStore 800000 = 576460752303423488
    ∧ minCountForCutoff summaryTestStore 900000 = 288230376151711744
    ∧ minCountForCutoff summaryTestStore 950000 = 288230376151711744
    ∧ minCountForCutoff summaryTestStore 990000 = 72057594037927936 := by
  decide

/-! Helper lemmas about the trace reservoir. -/

theorem map_snd_keyTraces (p : Nat → Nat) (i : Nat) (ts : List (List Nat)) :
    (keyTraces p i ts).map Prod.snd = ts := by
  induction ts generalizing i with
  | nil => rfl
  | cons t ts ih => simp [keyTraces, ih]

theorem length_keyTraces (p : Nat → Nat) (i : Nat) (ts : List (List Nat)) :
    (keyTraces p i ts).length = ts.length := by
  induction ts generalizing i with
  | nil => rfl
  | cons t ts ih => simp [keyTraces, ih]

theorem snd_mem_keyTraces (p : Nat → Nat) (i : Nat) (ts : List (List Nat))
    (x : Nat × List Nat) (hx : x ∈ keyTraces p i ts) : x.2 ∈ ts := by
  induction ts generalizing i with
  | nil => simp [keyTraces] at hx
  | cons t ts ih =>
    simp only [keyTraces, List.mem_cons] at hx
    rcases hx with rfl | hx
    · simp
    · exact List.mem_cons_of_mem _ (ih _ hx)

theorem length_topK (k : Nat) (l : List (Nat × List Nat)) :
    (topK k l).length = min k l.length := by
  unfold topK
  split
  · omega
  · rw [List.length_take, length_sortDescBy]

theorem mem_topK (k : Nat) (l : List (Nat × List Nat)) (x : Nat × List Nat)
    (hx : x ∈ topK k l) : x ∈ l := by
  unfold topK at hx
  split at hx
  · exact hx
  · exact (mem_sortDescBy _ _ _).1 (List.take_subset _ _ hx)

theorem ingest_entries_length (r : TraceReservoir) (p : Nat → Nat)
    (b : List (List Nat)) (w : Nat) :
    (ingest r p b w).entries.length = min r.capacity (r.entries.length + b.length) := by
  simp [ingest, length_topK, length_keyTraces]

theorem mem_traces_ingest (r : TraceReservoir) (p : Nat → Nat) (b : List (List Nat))
    (w : Nat) (t : List Nat) (ht : t ∈ traces (ingest r p b w)) :
    t ∈ traces r ∨ ∃ t0 ∈ b, t = t0.take r.maxTraceLength := by
  simp only [traces, List.mem_map] at ht
  obtain ⟨x, hx, rfl⟩ := ht
  rcases List.mem_append.1 (mem_topK _ _ _ hx) with h | h
  · exact Or.inl (List.mem_map_of_mem _ h)
  · right
    have hmem := snd_mem_keyTraces _ _ _ _ h
    simp only [List.mem_map] at hmem
    obtain ⟨t0, ht0, heq⟩ := hmem
    exact ⟨t0, ht0, heq.symm⟩

theorem ingestAll_capacity (specs : List IngestStep) :
    ∀ r : TraceReservoir, (ingestAll r specs).capacity = r.capacity := by
  induction specs with
  | nil => intro r; rfl
  | cons s ss ih => intro r; exact ih _

theorem ingestAll_streamSize (specs : List IngestStep) :
    ∀ r : TraceReservoir,
      (ingestAll r specs).streamSize = r.streamSize + (specs.map (fun s => s.weight)).sum := by
  induction specs with
  | nil => intro r; simp [ingestAll]
  | cons s ss ih =>
    intro r
    simp only [ingestAll, List.map_cons, List.sum_cons]
    rw [ih]
    simp only [ingest]
    omega

theorem ingestAll_entries_length (specs : List IngestStep) :
    ∀ r : TraceReservoir, r.entries.length ≤ r.capacity →
      (ingestAll r specs).entries.length
        = min r.capacity (r.entries.length + (specs.map (fun s => s.batch.length)).sum) := by
  induction specs with
  | nil => intro r h; simp [ingestAll]; omega
  | cons s ss ih =>
    intro r h
    simp only [ingestAll, List.map_cons, List.sum_cons]
    rw [ih _ (by rw [ingest_entries_length]; exact Nat.min_le_left _ _)]
    rw [ingest_entries_length]
    have hcap : (ingest r s.prios s.batch s.weight).capacity = r.capacity := rfl
    rw [hcap]
    omega

theorem ingestAll_traces_subset (specs : List IngestStep) :
    ∀ r : TraceReservoir, ∀ t ∈ traces (ingestAll r specs),
      t ∈ traces r ∨ ∃ s ∈ specs, ∃ t0 ∈ s.batch, t = t0.take r.maxTraceLength := by
  induction specs with
  | nil => intro r t ht; exact Or.inl ht
  | cons s ss ih =>
    intro r t ht
    rcases ih _ t ht with h | h
    · rcases mem_traces_ingest _ _ _ _ _ h with h2 | h2
      · exact Or.inl h2
      · obtain ⟨t0, ht0, heq⟩ := h2
        exact Or.inr ⟨s, List.mem_cons_self _ _, t0, ht0, heq⟩
    · obtain ⟨s2, hs2, t0, ht0, heq⟩ := h
      exact Or.inr ⟨s2, List.mem_cons_of_mem _ hs2, t0, ht0, heq⟩

/-! Helper lemmas about allocation-profile resolution. -/

theorem resolveStack_err_kind (st : MemProfStore) (s : List Nat) :
    ∀ e : InstrProfError, resolveStack st s = .err e → e = .hash_mismatch := by
  induction s with
  | nil => intro e h; simp [resolveStack] at h
  | cons i is ih =>
    intro e h
    simp only [resolveStack] at h
    split at h
    · injection h with h2
      exact h2.symm
    · split at h
      · simp at h
      · rename_i e2 heq
        injection h with h2
        exact h2 ▸ ih e2 heq

theorem resolveStack_err_of_missing (st : MemProfStore) (s : List Nat)
    (h : ∃ i ∈ s, lookupFrame st i = none) :
    resolveStack st s = .err .hash_mismatch := by
  induction s with
  | nil => simp at h
  | cons i is ih =>
    obtain ⟨j, hj, hnone⟩ := h
    rcases List.mem_cons.1 hj with rfl | hj2
    · simp [resolveStack, hnone]
    · simp only [resolveStack]
      cases hL : lookupFrame st i with
      | none => simp
      | some f => simp [ih ⟨j, hj2, hnone⟩]

theorem resolveStacks_err_kind (st : MemProfStore) (ss : List (List Nat)) :
    ∀ e : InstrProfError, resolveStacks st ss = .err e → e = .hash_mismatch := by
  induction ss with
  | nil => intro e h; simp [resolveStacks] at h
  | cons s rest ih =>
    intro e h
    simp only [resolveStacks] at h
    split at h
    · rename_i e2 heq
      injection h with h2
      exact h2 ▸ resolveStack_err_kind st s e2 heq
    · split at h
      · simp at h
      · rename_i e2 heq
        injection h with h2
        exact h2 ▸ ih e2 heq

theorem resolveStacks_err_of_missing (st : MemProfStore) (ss : List (List Nat))
    (h : ∃ s ∈ ss, ∃ i ∈ s, lookupFrame st i = none) :
    resolveStacks st ss = .err .hash_mismatch := by
  induction ss with
  | nil => simp at h
  | cons s rest ih =>
    obtain ⟨s2, hs2, hmiss⟩ := h
    rcases List.mem_cons.1 hs2 with rfl | hs3
    · simp [resolveStacks, resolveStack_err_of_missing st s2 hmiss]
    · simp only [resolveStacks]
      cases hr : resolveStack st s with
      | err e =>
        have hk := resolveStack_err_kind st s e hr
        subst hk
        simp
      | ok fs => simp [ih ⟨s2, hs3, hmiss⟩]

theorem mem_foldrAppend (ll : List (List Nat)) (i : Nat) :
    i ∈ ll.foldr (fun s acc => s ++ acc) [] ↔ ∃ s ∈ ll, i ∈ s := by
  induction ll with
  | nil => simp
  | cons s rest ih => simp [List.mem_append, ih]

/-- C6: ingesting a batch of B traces whose total weight W is at most the
reservoir capacity K into a fresh (not-yet-filled) reservoir retains
exactly those B traces deterministically, regardless of the randomness
oracle, each truncated at ingestion to its first MaxTraceLength elements,
and the reported stream size equals the total ingested weight. -/
theorem reservoir_deterministic_retention (k l w : Nat) (prios : Nat → Nat)
    (batch : List (List Nat)) (hb : batch.length ≤ w) (hw : w ≤ k) :
    traces (ingest (emptyReservoir k l) prios batch w) = batch.map (fun t => t.take l)
    ∧ (ingest (emptyReservoir k l) prios batch w).streamSize = w := by
  constructor
  · simp only [traces, ingest, emptyReservoir, topK, List.nil_append]
    rw [if_pos]
    · exact map_snd_keyTraces _ _ _
    · rw [length_keyTraces, List.length_map]
      omega
  · simp [ingest, emptyReservoir]

/-- C6 witness: the scenario of the unit test
test_merge_temporal_prof_traces_truncated: capacity 10, max trace length 2,
a 3-element trace and a 2-element trace ingested with weight 2 yield stream
size 2, and both stored traces equal the first two elements of the longer
trace (which coincide with the shorter trace). -/
theorem reservoir_deterministic_retention_witness :
    traces (ingest (emptyReservoir 10 2) (fun i => i) [[1, 2, 3], [1, 2]] 2) = [[1, 2], [1, 2]]
    ∧ (ingest (emptyReservoir 10 2) (fun i => i) [[1, 2, 3], [1, 2]] 2).streamSize = 2 := by
  have h := reservoir_deterministic_retention 10 2 2 (fun i => i) [[1, 2, 3], [1, 2]]
    (by decide) (by decide)
  exact ⟨h.1.trans (by decide), h.2⟩

/-- C7 counterexample: ingesting a single trace with weight 5 into a
fresh reservoir of capacity 3 makes the total ingested weight 5 exceed the
capacity 3, yet the reservoir holds one trace, not exactly 3: the claim
that any weight excess forces exactly K retained traces is false. -/
theorem reservoir_weight_exceeds_counterexample :
    (ingest (emptyReservoir 3 10) (fun i => i) [[1]] 5).streamSize = 5
    ∧ 3 < (ingest (emptyReservoir 3 10) (fun i => i) [[1]] 5).streamSize
    ∧ (traces (ingest (emptyReservoir 3 10) (fun i => i) [[1]] 5)).length = 1
    ∧ ¬ (traces (ingest (emptyReservoir 3 10) (fun i => i) [[1]] 5)).length = 3 := by
  refine ⟨rfl, by decide, rfl, by decide⟩

/-- C7 (amended): after any sequence of ingests into a fresh reservoir of
capacity K, the reported stream size equals the total ingested weight, the
reservoir holds exactly min(K, total number of ingested traces) traces —
in particular exactly K once at least K traces have been ingested — and
every retained trace is the prefix-truncation of a trace actually
ingested. -/
theorem reservoir_sampled_bound (k l : Nat) (specs : List IngestStep) :
    (ingestAll (emptyReservoir k l) specs).streamSize = (specs.map (fun s => s.weight)).sum
    ∧ (ingestAll (emptyReservoir k l) specs).entries.length
        = min k ((specs.map (fun s => s.batch.length)).sum)
    ∧ ∀ t ∈ traces (ingestAll (emptyReservoir k l) specs),
        ∃ s ∈ specs, ∃ t0 ∈ s.batch, t = t0.take l := by
  refine ⟨?_, ?_, ?_⟩
  · rw [ingestAll_streamSize]
    simp [emptyReservoir]
  · rw [ingestAll_entries_length specs (emptyReservoir k l) (by simp [emptyReservoir])]
    simp [emptyReservoir]
  · intro t ht
    rcases ingestAll_traces_subset specs _ t ht with h | h
    · simp [traces, emptyReservoir] at h
    · exact h

/-- C8: getRecord of the allocation-profile store fails with hash_mismatch
when the frame data required by the stored record is entirely absent from
the profile (and the record does require at least one frame), and fails
with unknown_function when the queried function identifier itself is
absent. -/
theorem memprof_getrecord_errors (st : MemProfStore) (id : Nat) :
    (lookupMemRecord st id = none → getMemProfRecord st id = .err .unknown_function)
    ∧ (∀ r, lookupMemRecord st id = some r →
        requiredFrameIds r ≠ [] →
        (∀ i ∈ requiredFrameIds r, lookupFrame st i = none) →
        getMemProfRecord st id = .err .hash_mismatch) := by
  constructor
  · intro h
    simp [getMemProfRecord, h]
  · intro r hr hne hall
    obtain ⟨i, hi⟩ := List.exists_mem_of_ne_nil _ hne
    obtain ⟨s, hs, his⟩ := (mem_foldrAppend _ _).1 hi
    have hnone := hall i hi
    rcases List.mem_append.1 hs with hsa | hsc
    · have ha := resolveStacks_err_of_missing st r.allocSites ⟨s, hsa, i, his, hnone⟩
      simp [getMemProfRecord, hr, ha]
    · have hc := resolveStacks_err_of_missing st r.callSites ⟨s, hsc, i, his, hnone⟩
      cases hra : resolveStacks st r.allocSites with
      | err e =>
        have hk := resolveStacks_err_kind st r.allocSites e hra
        subst hk
        simp [getMemProfRecord, hr, hra]
      | ok a => simp [getMemProfRecord, hr, hra, hc]

/-- C8 witness: the scenario of the unit test test_memprof_getrecord_error:
with no frame mappings added, getRecord of the present identifier 0x9999
fails with hash_mismatch and getRecord of the absent identifier 0x1111
fails with unknown_function. -/
theorem memprof_getrecord_errors_witness :
    getMemProfRecord memProfErrStore 0x9999 = .err .hash_mismatch
    ∧ getMemProfRecord memProfErrStore 0x1111 = .err .unknown_function :=
  ⟨(memprof_getrecord_errors memProfErrStore 0x9999).2 ⟨[[0, 1], [2, 3]], [[4, 5]]⟩
      (by decide) (by decide) (by decide),
   (memprof_getrecord_errors memProfErrStore 0x1111).1 (by decide)⟩

/-- C9: resolving a call stack through a caller-supplied frame lookup
substitutes the zeroed placeholder Frame for every unmapped frame id and
surfaces the id of the first miss to the caller as an observable
condition (none when every id is mapped); likewise the symtab address
resolver substitutes the value 0 for an unmapped address. -/
theorem frame_resolution_surfaces_miss :
    (∀ (L : Nat → Option Frame) (ids : List Nat),
       (resolveFrames L ids).1 = ids.map (fun i => (L i).getD zeroFrame)
       ∧ (resolveFrames L ids).2 = ids.find? (fun i => (L i).isNone))
    ∧ (∀ (A : Nat → Option Nat) (v : Nat), mapAddress A v = (A v).getD 0) := by
  constructor
  · intro L ids
    induction ids with
    | nil => exact ⟨rfl, rfl⟩
    | cons i is ih =>
      simp only [resolveFrames, List.map_cons]
      cases hL : L i with
      | some f =>
        rw [List.find?_cons_of_neg _ (by simp [hL])]
        simp [hL, ih.1, ih.2]
      | none =>
        rw [List.find?_cons_of_pos _ (by simp [hL])]
        simp [hL, ih.1]
  · intro A v
    cases hA : A v <;> simp [mapAddress, hA]

/-- C10: adding a record with an explicit weight W behaves like merging
that record W times: W-fold iterated saturating counter merging equals
multiplication by W clamped at the sentinel; the record read back through
the indexed format after a weighted add has every counter and every
value-profile count equal to W times the original (under saturating
arithmetic); and a site total count scales by exactly W whenever no entry
saturates. -/
theorem weighted_add_scales :
    (∀ c w : Nat, iterSatAdd c w = min (c * w) counterSentinel)
    ∧ (∀ (n h : Nat) (counts : List Nat) (sites : List Site) (w : Nat),
        getInstrProfRecord (writeBuffer false (addRecordW [] ⟨n, h, counts, sites⟩ w).1) n h
          = .ok ⟨n, h, counts.map (fun c => min (c * w) counterSentinel),
                 sites.map (scaleSite w)⟩)
    ∧ (∀ (s : Site) (w : Nat), (∀ e ∈ s, e.count * w ≤ valueCountMax) →
        siteTotal (scaleSite w s) = w * siteTotal s) := by
  refine ⟨?_, ?_, ?_⟩
  · intro c w
    induction w with
    | zero => simp [iterSatAdd]
    | succ n ih =>
      simp only [iterSatAdd, ih, Nat.mul_succ]
      omega
  · intro n h counts sites w
    simp [addRecordW, writeBuffer, getInstrProfRecord, scaleRecord, List.find?]
  · intro s w hsat
    induction s with
    | nil => simp [scaleSite, siteTotal]
    | cons e es ih =>
      have h1 : e.count * w ≤ valueCountMax := hsat e (List.mem_cons_self _ _)
      have h2 := ih (fun x hx => hsat x (List.mem_cons_of_mem _ hx))
      simp only [scaleSite, List.map_cons, siteTotal, List.foldr_cons] at h2 ⊢
      rw [Nat.min_eq_left h1, h2, Nat.mul_add, Nat.mul_comm w e.count]

/-- C10 witness: counters 1, 2 added with weight 3 read back as 3, 6
through the indexed format, and the total count of a concrete site with
counts 1 and 2 scaled by 3 is 3 times the original total. -/
theorem weighted_add_scales_witness :
    getInstrProfRecord (writeBuffer false (addRecordW [] ⟨1, 0x1234, [1, 2], []⟩ 3).1) 1 0x1234
        = .ok ⟨1, 0x1234, [3, 6], []⟩
    ∧ siteTotal (scaleSite 3 [⟨5, 1⟩, ⟨7, 2⟩]) = 3 * siteTotal [⟨5, 1⟩, ⟨7, 2⟩] := by
  constructor
  · exact (weighted_add_scales.2.1 1 0x1234 [1, 2] [] 3).trans (by decide)
  · exact weighted_add_scales.2.2 [⟨5, 1⟩, ⟨7, 2⟩] 3 (by decide)

end InstrProf
